import Mathlib

/-!
Verification of the task-tracker markdown engine.

This file gives a shallow embedding of the parsing, filtering and
document-mutation core found in `scripts/utils.py` and `scripts/tasks.py`
of the task-tracker skill, and proves (or refutes) the specification
claims about it.

Modelling conventions:
* Python strings are modelled as `String` / `List Char`; all character
  classes (`\d`, `\s`, `str.lower`) are modelled over ASCII, which covers
  every character the formats use.
* The clock is externalized: "today" is passed as the proleptic Gregorian
  ordinal (`dateOrd`) of the current date, exactly the number
  `datetime.date.toordinal` computes.  Python `date` values are compared
  by that ordinal, which agrees with Python's field-wise comparison on
  valid dates.
* File IO is externalized: every operation takes the document text and
  returns either the rewritten text (`Except .ok` / `some`) or an error
  value (`Except .error` / `none`), the latter modelling the source's
  report-and-return-without-write paths.
-/

/-- Python whitespace (`str.strip`, regex `\s`), restricted to the ASCII
whitespace characters. -/
def pyIsSpace (c : Char) : Bool :=
  c = ' ' || c = '\t' || c = '\n' || c = '\r' || c = '\x0b' || c = '\x0c'

/-- Model of Python `str.strip()` on a character list. -/
def pstrip (s : List Char) : List Char :=
  ((s.dropWhile pyIsSpace).reverse.dropWhile pyIsSpace).reverse

/-- Model of Python `str.rstrip()` on a character list. -/
def prstrip (s : List Char) : List Char :=
  (s.reverse.dropWhile pyIsSpace).reverse

/-- Model of Python `str.lower()` (ASCII). -/
def pyLower (s : List Char) : List Char :=
  s.map Char.toLower

/-- Numeric value of an ASCII digit. -/
def charVal (c : Char) : Nat := c.toNat - '0'.toNat

/-- Model of `content.split('\n')`: split a character list at every
newline; `splitNL [] = [[]]` just as `''.split('\n') == ['']`. -/
def splitNL : List Char → List (List Char)
  | [] => [[]]
  | c :: t =>
    if c = '\n' then [] :: splitNL t
    else
      match splitNL t with
      | h :: r => (c :: h) :: r
      | [] => [[c]]

/-- Python substring test `pat in s` on character lists: `pat` is a
prefix of some suffix of `s`. -/
def containsSub (s pat : List Char) : Bool :=
  if pat.isPrefixOf s then true
  else
    match s with
    | [] => false
    | _ :: t => containsSub t pat

/-- Python substring test `q in s` on strings. -/
def strContains (s q : String) : Bool := containsSub s.data q.data

/-- Model of Python `str.lower()` on strings (ASCII). -/
def strLower (s : String) : String := String.mk (pyLower s.data)

/- ---------------------------------------------------------------------
Dates.  `datetime.strptime(s, '%Y-%m-%d').date()` is modelled by
`strptimeDate`, following CPython's `_strptime` regexes:
`%Y` is exactly four digits, `%m` is `1[0-2]|0[1-9]|[1-9]`,
`%d` is `3[01]|[12]\d|0[1-9]|[1-9]`, the whole string must be consumed,
and the `datetime` constructor then validates the day against the month
(and rejects year 0).
--------------------------------------------------------------------- -/

/-- Gregorian leap year test. -/
def isLeap (y : Nat) : Bool :=
  y % 4 == 0 && (y % 100 != 0 || y % 400 == 0)

/-- Number of days in month `m` of year `y`. -/
def daysInMonth (y m : Nat) : Nat :=
  if m = 2 then (if isLeap y then 29 else 28)
  else if m = 4 || m = 6 || m = 9 || m = 11 then 30
  else 31

/-- Days in year `y` strictly before month `m`. -/
def daysBeforeMonth (y m : Nat) : Nat :=
  (List.range (m - 1)).foldl (fun a i => a + daysInMonth y (i + 1)) 0

/-- Proleptic Gregorian ordinal of a date, with `dateOrd (1,1,1) = 1`;
this is exactly Python's `date.toordinal()`. -/
def dateOrd : Nat × Nat × Nat → Nat
  | (y, m, d) =>
    365 * (y - 1) + (y - 1) / 4 - (y - 1) / 100 + (y - 1) / 400
      + daysBeforeMonth y m + d

/-- CPython `%m` field: `1[0-2]|0[1-9]|[1-9]`, alternatives tried in
order with the regex engine's backtracking folded in (a two-digit
alternative that fails simply leaves the second character unread). -/
def readMonth : List Char → Option (Nat × List Char)
  | [] => none
  | [c] => if '1' ≤ c ∧ c ≤ '9' then some (charVal c, []) else none
  | c :: d :: r =>
    if c = '1' ∧ (d = '0' ∨ d = '1' ∨ d = '2') then some (10 + charVal d, r)
    else if c = '0' ∧ '1' ≤ d ∧ d ≤ '9' then some (charVal d, r)
    else if '1' ≤ c ∧ c ≤ '9' then some (charVal c, d :: r)
    else none

/-- CPython `%d` field: `3[01]|[12]\d|0[1-9]|[1-9]`, same conventions as
`readMonth`. -/
def readDay : List Char → Option (Nat × List Char)
  | [] => none
  | [c] => if '1' ≤ c ∧ c ≤ '9' then some (charVal c, []) else none
  | c :: d :: r =>
    if c = '3' ∧ (d = '0' ∨ d = '1') then some (30 + charVal d, r)
    else if (c = '1' ∨ c = '2') ∧ d.isDigit then
      some (10 * charVal c + charVal d, r)
    else if c = '0' ∧ '1' ≤ d ∧ d ≤ '9' then some (charVal d, r)
    else if '1' ≤ c ∧ c ≤ '9' then some (charVal c, d :: r)
    else none

/-- Model of `datetime.strptime(s, '%Y-%m-%d').date()`: `some (y, m, d)`
on success, `none` when the Python call raises `ValueError`. -/
def strptimeDate (s : String) : Option (Nat × Nat × Nat) :=
  match s.data with
  | y1 :: y2 :: y3 :: y4 :: '-' :: rest =>
    if y1.isDigit ∧ y2.isDigit ∧ y3.isDigit ∧ y4.isDigit then
      let y := ((charVal y1 * 10 + charVal y2) * 10 + charVal y3) * 10 + charVal y4
      match readMonth rest with
      | some (m, rest2) =>
        match rest2 with
        | '-' :: rest3 =>
          match readDay rest3 with
          | some (d, []) =>
            if 1 ≤ y ∧ d ≤ daysInMonth y m then some (y, m, d) else none
          | _ => none
        | _ => none
      | none => none
    else none
  | _ => none

/-- Python `date.weekday()` (Monday = 0) of an ordinal; ordinal 1,
0001-01-01, is a Monday. -/
def pyWeekday (o : Nat) : Nat := (o + 6) % 7

/-- The `today + timedelta(days=(6 - today.weekday()))` computation of
`check_due_date`: the ordinal of the Sunday ending the current week. -/
def weekEnd (today : Nat) : Nat := today + (6 - pyWeekday today)

/-- Model of `utils.check_due_date(due, check_type)` with the clock
passed as the ordinal of `datetime.now().date()`.  The empty string
models every falsy `due` value (`''` and `None`). -/
def check_due_date (due : String) (check_type : String) (today : Nat) : Bool :=
  if due = "" then decide (check_type = "today")
  else
    let week_end := weekEnd today
    match strptimeDate due with
    | some dd =>
      if check_type = "today" then decide (dateOrd dd ≤ today)
      else if check_type = "this-week" then decide (dateOrd dd ≤ week_end)
      else if check_type = "overdue" then decide (dateOrd dd < today)
      else false
    | none => false

/- ---------------------------------------------------------------------
Task records and the parser state.

`parse_tasks` builds Python dicts with exactly the keys
`title, done, section, due, area, raw_line`, plus `blocks` when a legacy
`blocks:` continuation fires.  `Option` fields with `none` model absent
values; `TaskRec.blocks = none` models the absent `blocks` key.  Because the
bucket lists in the source hold references to the same dict that later
continuation lines mutate in place, the parser state below stores bucket
membership as indices into the task list (`revAll`, most recent first)
and materializes the buckets at the end, after all mutations.
--------------------------------------------------------------------- -/

structure TaskRec where
  title : String
  done : Bool
  sectionKey : Option String
  due : Option String
  area : Option String
  raw_line : String
  blocks : Option String
  deriving Repr, DecidableEq

/-- Keys present in the Python dict that `parse_tasks` builds for a task
(`section` is `sectionKey` here since `section` is a Lean keyword). -/
def taskKeys (t : TaskRec) : List String :=
  ["title", "done", "section", "due", "area", "raw_line"]
    ++ (if t.blocks.isSome then ["blocks"] else [])

/-- Python `t.get('status', '')`: `parse_tasks` never writes a `status`
key, so the lookup always returns the default. -/
def TaskRec.get_status (_ : TaskRec) : String := ""

structure PState where
  currentSection : Option String
  revAll : List TaskRec
  q1R : List Nat
  q2R : List Nat
  q3R : List Nat
  teamR : List Nat
  backlogR : List Nat
  doneR : List Nat
  dueR : List Nat
  deriving Repr, DecidableEq

/-- Work-dialect `section_mapping` of `parse_tasks`. -/
def work_mapping (e : Char) : Option String :=
  if e = '🔴' then some "q1"
  else if e = '🟡' then some "q2"
  else if e = '🟠' then some "q3"
  else if e = '👥' then some "team"
  else if e = '⚪' then some "backlog"
  else if e = '✅' then some "done"
  else none

/-- Personal-dialect `personal_section_mapping` (no team bucket). -/
def personal_mapping (e : Char) : Option String :=
  if e = '🔴' then some "q1"
  else if e = '🟡' then some "q2"
  else if e = '🟠' then some "q3"
  else if e = '⚪' then some "backlog"
  else if e = '✅' then some "done"
  else none

def sectionMapping (personal : Bool) (e : Char) : Option String :=
  if personal then personal_mapping e else work_mapping e

/-- Obsidian header recognition, `## ([🔴🟡🟠👥⚪✅]) (?:.*?: )?(.+)`
under `re.match`: the emoji, one space, and at least one further
character; only the emoji (group 1) is used by the caller. -/
def obsHeaderEmoji : List Char → Option Char
  | '#' :: '#' :: ' ' :: e :: ' ' :: rest =>
    if rest ≠ [] ∧ (e = '🔴' ∨ e = '🟡' ∨ e = '🟠' ∨ e = '👥' ∨ e = '⚪' ∨ e = '✅')
    then some e else none
  | _ => none

/-- Legacy header recognition, `## ([🔴🟡🟢📅✅]) (.+)` under
`re.match`. -/
def legHeaderEmoji : List Char → Option Char
  | '#' :: '#' :: ' ' :: e :: ' ' :: rest =>
    if rest ≠ [] ∧ (e = '🔴' ∨ e = '🟡' ∨ e = '🟢' ∨ e = '📅' ∨ e = '✅')
    then some e else none
  | _ => none

/-- Index of the first occurrence of `**` in a character list. -/
def findStars : List Char → Option Nat
  | '*' :: '*' :: _ => some 0
  | _ :: t => (findStars t).map (· + 1)
  | [] => none

/-- The task-line regex `^- \[([ x])\] \*\*(.+?)\*\*(.*)$` (identical in
both dialects): checkbox character, then the shortest non-empty title
followed by `**`, then the trailing fragment.  Returns
`(done, raw title, raw trailing fragment)`. -/
def taskMatch (line : List Char) : Option (Bool × List Char × List Char) :=
  match line with
  | '-' :: ' ' :: '[' :: c :: ']' :: ' ' :: '*' :: '*' :: tl =>
    if c = ' ' ∨ c = 'x' then
      match tl with
      | [] => none
      | c0 :: tl' =>
        match findStars tl' with
        | some j => some (c == 'x', c0 :: tl'.take j, tl'.drop (j + 2))
        | none => none
    else none
  | _ => none

/-- Shape check for `(\d{4}-\d{2}-\d{2})` at the head of a fragment. -/
def dateShape10 : List Char → Option (List Char)
  | y1 :: y2 :: y3 :: y4 :: '-' :: m1 :: m2 :: '-' :: d1 :: d2 :: _ =>
    if y1.isDigit && y2.isDigit && y3.isDigit && y4.isDigit
        && m1.isDigit && m2.isDigit && d1.isDigit && d2.isDigit
    then some [y1, y2, y3, y4, '-', m1, m2, '-', d1, d2] else none
  | _ => none

/-- Leftmost match of `re.search(r'🗓️(\d{4}-\d{2}-\d{2})', rest)`; the
glyph is the two codepoints U+1F5D3 U+FE0F. -/
def searchEmojiDate : List Char → Option (List Char)
  | [] => none
  | '🗓' :: t =>
    match t with
    | '️' :: r =>
      match dateShape10 r with
      | some ds => some ds
      | none => searchEmojiDate t
    | _ => searchEmojiDate t
  | _ :: t => searchEmojiDate t

/-- Leftmost match of `re.search(key + r'([^\s]+)', rest)` for an inline
`key::value` field: the key immediately followed by a non-empty maximal
run of non-whitespace characters. -/
def searchField (key : List Char) : List Char → Option (List Char)
  | [] => none
  | c :: t =>
    if key.isPrefixOf (c :: t) then
      match ((c :: t).drop key.length).takeWhile (fun ch => !pyIsSpace ch) with
      | [] => searchField key t
      | v => some v
    else searchField key t

/-- Leftmost match of `re.search(r'Due:\s*([^\s—]+)', rest)` used by the
legacy dialect. -/
def searchLegacyDue : List Char → Option (List Char)
  | [] => none
  | c :: t =>
    if "Due:".data.isPrefixOf (c :: t) then
      match (((c :: t).drop 4).dropWhile pyIsSpace).takeWhile
          (fun ch => !pyIsSpace ch && ch ≠ '—') with
      | [] => searchLegacyDue t
      | v => some v
    else searchLegacyDue t

/-- Python `s.split(':', 1)[1]`: everything after the first colon. -/
def afterColon : List Char → List Char
  | [] => []
  | ':' :: t => t
  | _ :: t => afterColon t

/-- Build the task record for a matched task line, including inline
field extraction from the stripped trailing fragment.  The source's
field loop also scans `goal::` and `owner::` but binds their values to a
local that is stored nowhere, so only `area` reaches the record. -/
def newTaskOf (fmt : String) (cs : Option String) (line rawTitle rawRest : List Char)
    (dn : Bool) : TaskRec :=
  let rest := pstrip rawRest
  let due_str : Option String :=
    if fmt = "obsidian" then (searchEmojiDate rest).map String.mk
    else (searchLegacyDue rest).map String.mk
  let area : Option String :=
    if fmt = "obsidian" then (searchField "area::".data rest).map (fun v => String.mk (pstrip v))
    else none
  { title := String.mk (pstrip rawTitle), done := dn, sectionKey := cs,
    due := due_str, area := area, raw_line := String.mk line, blocks := none }

/-- A `result[key].append(current_task)` by bucket key (the mappings only
ever produce the six keys below). -/
def pushSection (st : PState) (k : String) (i : Nat) : PState :=
  if k = "q1" then { st with q1R := i :: st.q1R }
  else if k = "q2" then { st with q2R := i :: st.q2R }
  else if k = "q3" then { st with q3R := i :: st.q3R }
  else if k = "team" then { st with teamR := i :: st.teamR }
  else if k = "backlog" then { st with backlogR := i :: st.backlogR }
  else if k = "done" then { st with doneR := i :: st.doneR }
  else st

/-- Bucketing of a freshly appended task (`st1` already holds it):
`done` bucket if checked, else the current section's bucket when one is
set. -/
def bucketTask (st1 : PState) (cs : Option String) (i : Nat) (dn : Bool) : PState :=
  if dn then { st1 with doneR := i :: st1.doneR }
  else
    match cs with
    | some k => pushSection st1 k i
    | none => st1

/-- The `if due_str and not done` due-today check on a freshly appended
task, with `ValueError` from `strptime` swallowed. -/
def dueTask (today : Nat) (st2 : PState) (i : Nat) (dn : Bool)
    (due : Option String) : PState :=
  if dn = false then
    match due with
    | some s =>
      if s ≠ "" then
        match strptimeDate s with
        | some d => if dateOrd d = today then { st2 with dueR := i :: st2.dueR } else st2
        | none => st2
      else st2
    | none => st2
  else st2

/-- Processing of a matched task line: create the record, append it to
`all`, bucket it, then run the due-today check. -/
def taskStep (fmt : String) (today : Nat) (st : PState)
    (line rawTitle rawRest : List Char) (dn : Bool) : PState :=
  let t := newTaskOf fmt st.currentSection line rawTitle rawRest dn
  dueTask today
    (bucketTask { st with revAll := t :: st.revAll } st.currentSection st.revAll.length dn)
    st.revAll.length dn t.due

/-- Metadata-continuation handling (`  - ` lines).  Only the legacy
dialect processes them: `due:` sets `current_task['due']` when it is
falsy, `blocks:` always sets `current_task['blocks']`; nothing else (in
particular no `owner:` handling) exists.  The mutation hits the head of
`revAll`, i.e. the most recently created record, which is what every
bucket index referring to it will see. -/
def applyMeta (fmt : String) (st : PState) (line : List Char) : PState :=
  if fmt = "legacy" then
    let meta := pstrip ((pstrip line).drop 2)
    if "due:".data.isPrefixOf (pyLower meta) then
      match st.revAll with
      | t :: rest =>
        if t.due = none ∨ t.due = some "" then
          { st with revAll :=
              { t with due := some (String.mk (pstrip (afterColon meta))) } :: rest }
        else st
      | [] => st
    else if "blocks:".data.isPrefixOf (pyLower meta) then
      match st.revAll with
      | t :: rest =>
        { st with revAll :=
            { t with blocks := some (String.mk (pstrip (afterColon meta))) } :: rest }
      | [] => st
    else st
  else st

/-- One iteration of the `for line in content.split('\n')` loop of
`parse_tasks`: header lines first (always `continue`, recognized or
not), then task lines, then continuation lines (which require a current
task). -/
def stepLine (personal : Bool) (fmt : String) (today : Nat) (st : PState)
    (line : List Char) : PState :=
  if "## ".data.isPrefixOf line then
    match (if fmt = "obsidian" then obsHeaderEmoji line else legHeaderEmoji line) with
    | some e => { st with currentSection := sectionMapping personal e }
    | none => st
  else
    match taskMatch line with
    | some (dn, rawTitle, rawRest) => taskStep fmt today st line rawTitle rawRest dn
    | none =>
      if st.revAll ≠ [] ∧ "  - ".data.isPrefixOf line then applyMeta fmt st line
      else st

structure ParseResult where
  q1 : List TaskRec
  q2 : List TaskRec
  q3 : List TaskRec
  team : List TaskRec
  backlog : List TaskRec
  done : List TaskRec
  due_today : List TaskRec
  all : List TaskRec
  deriving Repr, DecidableEq

/-- Materialize a bucket: reverse the (most-recent-first) index list and
read each index out of the final task list. -/
def fetch (all : List TaskRec) (revIdx : List Nat) : List TaskRec :=
  revIdx.reverse.filterMap (fun i => all.get? i)

def initPState : PState := ⟨none, [], [], [], [], [], [], [], []⟩

/-- Model of `utils.parse_tasks(content, personal, format)`, with the
clock passed as today's ordinal.  Any `format` other than `'obsidian'`
takes the legacy code paths, as in the source. -/
def parseState (content : String) (personal : Bool) (fmt : String) (today : Nat) :
    PState :=
  (splitNL content.data).foldl (stepLine personal fmt today) initPState

def parse_tasks (content : String) (personal : Bool) (fmt : String) (today : Nat) :
    ParseResult :=
  let st := parseState content personal fmt today
  let all := st.revAll.reverse
  { q1 := fetch all st.q1R, q2 := fetch all st.q2R, q3 := fetch all st.q3R,
    team := fetch all st.teamR, backlog := fetch all st.backlogR,
    done := fetch all st.doneR, due_today := fetch all st.dueR, all := all }

/- ---------------------------------------------------------------------
Models of the `tasks.py` operations.  Errors are surfaced as `Except`
values; an `.error` result models the source's print-and-return path,
which performs no write and therefore leaves the document unchanged.
--------------------------------------------------------------------- -/

inductive TaskErr where
  | notFound
  | ambiguous (titles : List String)
  | keyError (key : String)
  | sectionNotFound (sec : String)
  deriving Repr, DecidableEq

instance {e a : Type} [DecidableEq e] [DecidableEq a] : DecidableEq (Except e a) :=
  fun x y =>
    match x, y with
    | .ok v, .ok w =>
      if h : v = w then .isTrue (congrArg Except.ok h)
      else .isFalse (fun hh => h (Except.ok.inj hh))
    | .error v, .error w =>
      if h : v = w then .isTrue (congrArg Except.error h)
      else .isFalse (fun hh => h (Except.error.inj hh))
    | .ok _, .error _ => .isFalse (fun hh => Except.noConfusion hh)
    | .error _, .ok _ => .isFalse (fun hh => Except.noConfusion hh)

/-- The fuzzy-match candidate list of `done_task`: case-insensitive
substring match of the query against titles of not-done tasks
(`parse_tasks` is called with its default `format='obsidian'`). -/
def doneMatches (content query : String) (personal : Bool) (today : Nat) :
    List TaskRec :=
  ((parse_tasks content personal "obsidian" today).all).filter
    (fun t => strContains (strLower t.title) (strLower query) && !t.done)

/-- Model of `tasks.done_task`.  Zero matches and multiple matches are
reported and abort without a write.  On the unique-match path the source
evaluates `task['raw_lines'][0]`, but `parse_tasks` stores the key
`raw_line` (singular) only — see `taskKeys` — so the subscript raises
`KeyError` before any write happens; the model returns that error. -/
def done_task (content query : String) (personal : Bool) (today : Nat) :
    Except TaskErr String :=
  let ms := doneMatches content query personal today
  if ms = [] then .error .notFound
  else if 1 < ms.length then .error (.ambiguous (ms.map (fun t => t.title)))
  else .error (.keyError "raw_lines")

/-- The `priority_map` of `list_tasks`. -/
def priorityKey (p : String) : Option String :=
  if strLower p = "high" then some "q1"
  else if strLower p = "medium" then some "q2"
  else if strLower p = "low" then some "backlog"
  else none

/-- Bucket lookup `tasks_data.get(key, [])` on a parse result. -/
def bucketOf (r : ParseResult) (k : String) : List TaskRec :=
  if k = "q1" then r.q1
  else if k = "q2" then r.q2
  else if k = "q3" then r.q3
  else if k = "team" then r.team
  else if k = "backlog" then r.backlog
  else if k = "done" then r.done
  else if k = "due_today" then r.due_today
  else if k = "all" then r.all
  else []

/-- The base set `list_tasks` filters: the mapped priority bucket when a
recognized priority is given, otherwise all tasks. -/
def base_set (r : ParseResult) (priority : Option String) : List TaskRec :=
  match priority with
  | none => r.all
  | some p =>
    match priorityKey p with
    | some k => bucketOf r k
    | none => r.all

/-- Status normalization of `list_tasks`: lowercase, hyphens to
spaces. -/
def normStatus (s : String) : String :=
  String.mk ((pyLower s.data).map (fun c => if c = '-' then ' ' else c))

/-- The status filter of `list_tasks`, applied on top of the active base
set: keep tasks whose normalized `t.get('status', '')` equals the
normalized status argument. -/
def status_filter (base : List TaskRec) (status : String) : List TaskRec :=
  base.filter (fun t => normStatus t.get_status == normStatus status)

/-- The `priority_section` dict lookup of `add_task`, default
`'🟡 Q2'`. -/
def prioritySectionOf (p : String) : String :=
  if p = "high" then "🔴 Q1"
  else if p = "medium" then "🟡 Q2"
  else if p = "low" then "⚪ Backlog"
  else "🟡 Q2"

/-- The task entry `add_task` builds (`'\n'.join(task_lines)`): title
line plus optional date, owner, and area continuation lines. -/
def taskEntry (title : String) (due : Option String) (owner : String)
    (area : Option String) : String :=
  String.intercalate "\n"
    (["- [ ] **" ++ title ++ "**"]
      ++ (match due with
          | some d => if d ≠ "" then ["  🗓️" ++ d] else []
          | none => [])
      ++ (if owner ≠ "" ∧ owner ≠ "martin" ∧ owner ≠ "me" then
            ["  owner:: " ++ owner] else [])
      ++ (match area with
          | some a => if a ≠ "" then ["  area:: " ++ a] else []
          | none => []))

/-- Index of the first newline in a character list. -/
def findNL : List Char → Option Nat
  | '\n' :: _ => some 0
  | _ :: t => (findNL t).map (· + 1)
  | [] => none

/-- The non-greedy `.*?(\n## |\n---|\Z)` tail shared by the section
regexes of `add_task` and `archive_done` (DOTALL): consume the shortest
run of characters up to a `\n## ` or `\n---` boundary or the end of the
string.  Returns `(consumed, boundary group, remainder after match)`. -/
def findBnd : List Char → (List Char × List Char × List Char)
  | [] => ([], [], [])
  | c :: t =>
    if "\n## ".data.isPrefixOf (c :: t) then ([], "\n## ".data, (c :: t).drop 4)
    else if "\n---".data.isPrefixOf (c :: t) then ([], "\n---".data, (c :: t).drop 4)
    else
      match findBnd t with
      | (sk, g, r) => (c :: sk, g, r)

/-- Leftmost match of the `add_task` section regex
`(## <section>.*?\n)(.*?)(\n## |\n---|\Z)` (DOTALL) against the
document: returns `(text before the match, group 1, group 2, group 3,
text after the match)`. -/
def sectionFind (lit : List Char) : List Char →
    Option (List Char × List Char × List Char × List Char × List Char)
  | [] => none
  | c :: t =>
    if lit.isPrefixOf (c :: t) then
      match findNL ((c :: t).drop lit.length) with
      | some x =>
        let g1 := (c :: t).take (lit.length + x + 1)
        match findBnd ((c :: t).drop (lit.length + x + 1)) with
        | (sk, g3, rest) => some ([], g1, sk, g3, rest)
      | none =>
        (sectionFind lit t).map (fun q => (c :: q.1, q.2.1, q.2.2.1, q.2.2.2.1, q.2.2.2.2))
    else
      (sectionFind lit t).map (fun q => (c :: q.1, q.2.1, q.2.2.1, q.2.2.2.1, q.2.2.2.2))

/-- Model of `tasks.add_task`: locate the priority section's block and
splice the new entry at the end of its content (group 2 right-stripped,
one blank line, the entry, a newline); report section-not-found without
a write when the regex finds no match. -/
def add_task (content title priority : String) (due : Option String)
    (owner : String) (area : Option String) : Except TaskErr String :=
  let sec := prioritySectionOf priority
  match sectionFind ("## " ++ sec).data content.data with
  | none => .error (.sectionNotFound sec)
  | some (pre, g1, g2, g3, rest) =>
    let insert := String.mk (prstrip g2) ++ "\n\n" ++ taskEntry title due owner area ++ "\n"
    .ok (String.mk pre ++ String.mk g1 ++ insert ++ String.mk g3 ++ String.mk rest)

/-- The literal head of the `archive_done` done-section regex. -/
def litDone : List Char := "## ✅ Done".data

/-- The placeholder `archive_done` writes back into the done section. -/
def donePlaceholder : List Char :=
  "_Move completed items here during daily standup_".data

/-- Index of the first `\n\n` in a character list (the non-greedy
`.*?\n\n` of group 1 of the done-section regex, DOTALL). -/
def findDNL : List Char → Option Nat
  | '\n' :: '\n' :: _ => some 0
  | _ :: t => (findDNL t).map (· + 1)
  | [] => none

/-- One fuel-indexed pass of
`re.sub(r'(## ✅ Done.*?\n\n).*?(\n## |\n---|\Z)', r'\1<placeholder>\n\n\2', content, flags=DOTALL)`:
scan left to right; at a position where the literal matches and a `\n\n`
follows somewhere, emit group 1, the placeholder, `\n\n` and the
boundary group, then continue after the match; otherwise advance one
character.  Fuel `s.length` (see `doneSub`) always suffices since every
step consumes at least one character. -/
def doneSubAux : Nat → List Char → List Char
  | 0, s => s
  | f + 1, s =>
    if litDone.isPrefixOf s then
      match findDNL (s.drop litDone.length) with
      | some x =>
        let g1 := s.take (litDone.length + x + 2)
        match findBnd (s.drop (litDone.length + x + 2)) with
        | (_, g2, rest) => g1 ++ donePlaceholder ++ '\n' :: '\n' :: (g2 ++ doneSubAux f rest)
      | none =>
        match s with
        | [] => []
        | c :: t => c :: doneSubAux f t
    else
      match s with
      | [] => []
      | c :: t => c :: doneSubAux f t

/-- The done-section reset substitution of `archive_done`. -/
def doneSub (s : List Char) : List Char := doneSubAux s.length s

/-- The per-task summary lines `archive_done` appends to the quarterly
archive (one line per done-bucket task; the dated `## Archived ...`
header above them is clock/formatting glue and not part of the entry
count). -/
def archiveLines (done : List TaskRec) : List String :=
  done.map (fun t => "- ✅ **" ++ t.title ++ "**")

/-- Model of `tasks.archive_done`: `none` when the done bucket is empty
(no write at all); otherwise the archive entry lines and the rewritten
source document. -/
def archive_done (content : String) (personal : Bool) (today : Nat) :
    Option (List String × String) :=
  let done := (parse_tasks content personal "obsidian" today).done
  if done = [] then none
  else some (archiveLines done, String.mk (doneSub content.data))

/-- Every index of `idx` resolves in `all` to a task satisfying `P`. -/
def AllProp (all : List TaskRec) (idx : List Nat) (P : TaskRec → Prop) : Prop :=
  ∀ i ∈ idx, ∃ t, all.get? i = some t ∧ P t

/-- Every done task of `all` is indexed by `doneR`. -/
def DonePred (all : List TaskRec) (doneR : List Nat) : Prop :=
  ∀ i u, all.get? i = some u → u.done = true → i ∈ doneR

/-- The due-today property bucket `due_today` indices certify. -/
def DueOk (today : Nat) (t : TaskRec) : Prop :=
  t.done = false ∧
    ∃ s d, t.due = some s ∧ strptimeDate s = some d ∧ dateOrd d = today

/-- Invariant of the parse fold: what each bucket's indices certify
about the (final) task list. -/
def StInv (today : Nat) (st : PState) : Prop :=
  AllProp st.revAll.reverse st.doneR
      (fun t => t.done = true ∨ t.sectionKey = some "done") ∧
  AllProp st.revAll.reverse st.q1R (fun t => t.done = false) ∧
  AllProp st.revAll.reverse st.q2R (fun t => t.done = false) ∧
  AllProp st.revAll.reverse st.q3R (fun t => t.done = false) ∧
  AllProp st.revAll.reverse st.teamR (fun t => t.done = false) ∧
  AllProp st.revAll.reverse st.backlogR (fun t => t.done = false) ∧
  DonePred st.revAll.reverse st.doneR ∧
  AllProp st.revAll.reverse st.dueR (DueOk today)

/-- A line is safe for an empty done bucket when it is not a checked
task line. -/
def lineNoDoneTask (l : List Char) : Bool :=
  match taskMatch l with
  | some (dn, _, _) => !dn
  | none => true

/-- A line is safe for the current section when it is not a recognized
header mapping to the done bucket. -/
def lineNotDoneHeader (personal : Bool) (l : List Char) : Bool :=
  match obsHeaderEmoji l with
  | some e => !(sectionMapping personal e == some "done")
  | none => true

/- ---------------------------------------------------------------------
Sanity checks of the embedding on concrete inputs.
--------------------------------------------------------------------- -/

example : strptimeDate "2026-01-15" = some (2026, 1, 15) := by decide
example : strptimeDate "2026-1-5" = some (2026, 1, 5) := by decide
example : strptimeDate "2026-13-01" = none := by decide
example : strptimeDate "2026-02-30" = none := by decide
example : strptimeDate "2024-02-29" = some (2024, 2, 29) := by decide
example : strptimeDate "" = none := by decide
example : strptimeDate "garbage" = none := by decide
example : dateOrd (2026, 1, 15) = 739631 := by decide
example : pyWeekday (dateOrd (2026, 1, 15)) = 3 := by decide
example : check_due_date "2026-01-10" "overdue" (dateOrd (2026, 1, 15)) = true := by decide
example : check_due_date "2026-01-20" "overdue" (dateOrd (2026, 1, 15)) = false := by decide
example : check_due_date "" "today" 12345 = true := by decide
example :
    (parse_tasks "## 🔴 Q1: Urgent\n- [ ] **Ship report** 🗓️2026-01-10 area::Sales"
      false "obsidian" 0).q1.map TaskRec.title = ["Ship report"] := by decide
example :
    (parse_tasks "## 🔴 Q1: Urgent\n- [ ] **Ship report** 🗓️2026-01-10 area::Sales"
      false "obsidian" 0).all.map TaskRec.due = [some "2026-01-10"] := by decide
example :
    (parse_tasks "## 🔴 Q1: Urgent\n- [ ] **Ship report** 🗓️2026-01-10 area::Sales"
      false "obsidian" 0).all.map TaskRec.area = [some "Sales"] := by decide
example :
    (parse_tasks "- [ ] **T** 🗓️2026-01-15" false "obsidian"
      (dateOrd (2026, 1, 15))).due_today.map TaskRec.title = ["T"] := by decide
example :
    (parse_tasks "## ✅ D\n- [ ] **t**" false "obsidian" 0).done.map TaskRec.done
      = [false] := by decide
example :
    (parse_tasks "- [ ] **T**\n  - due: 2026-01-01\n  - blocks: bob" false "legacy"
      0).all.map TaskRec.due = [some "2026-01-01"] := by decide
example :
    (parse_tasks "- [ ] **T**\n  - due: 2026-01-01\n  - blocks: bob" false "legacy"
      0).all.map TaskRec.blocks = [some "bob"] := by decide
example :
    (parse_tasks "- [ ] **T**\n  - due: 2026-01-01" false "obsidian"
      0).all.map TaskRec.due = [none] := by decide
example :
    doneSub "## ✅ Done\n\n- [x] **u**\n".data
      = "## ✅ Done\n\n_Move completed items here during daily standup_\n\n".data := by
  decide
example :
    doneSub "## 🔴 Q1: A\n- [x] **t**".data = "## 🔴 Q1: A\n- [x] **t**".data := by
  decide
example :
    done_task "## 🔴 Q1: A\n- [ ] **Ship report**" "ship" false 0
      = .error (.keyError "raw_lines") := by decide
example :
    done_task "- [ ] **Ship report**\n- [ ] **Ship invoice**" "ship" false 0
      = .error (.ambiguous ["Ship report", "Ship invoice"]) := by decide
example :
    done_task "- [ ] **Ship report**" "zzz" false 0 = .error .notFound := by decide
example :
    (add_task "## 🟡 Q2: B\n- [ ] **x**" "New" "high" none "me" none).isOk = false := by
  decide
example :
    (match add_task "## 🔴 Q1: A\n\n- [ ] **x**\n\n## 🟡 Q2: B\n" "New" "high"
        none "me" none with
      | .ok s => (parse_tasks s false "obsidian" 0).q1.map TaskRec.title
      | .error _ => []) = ["x", "New"] := by decide

/- ---------------------------------------------------------------------
Bucket lemmas: what `fetch` membership means, and an invariant on the
parser state that the line fold preserves.
--------------------------------------------------------------------- -/

theorem get?_some_lt {α : Type} {l : List α} {n : Nat} {a : α}
    (h : l.get? n = some a) : n < l.length := by
  by_contra hh
  rw [List.get?_eq_none.mpr (Nat.le_of_not_lt hh)] at h
  exact Option.noConfusion h

theorem get?_snoc_eq {α : Type} (l : List α) (a : α) :
    (l ++ [a]).get? l.length = some a :=
  List.get?_concat_length l a

theorem get?_snoc_cases {α : Type} {l : List α} {a : α} {i : Nat} {u : α}
    (h : (l ++ [a]).get? i = some u) :
    (i < l.length ∧ l.get? i = some u) ∨ (i = l.length ∧ u = a) := by
  rcases Nat.lt_trichotomy i l.length with hlt | heq | hgt
  · exact Or.inl ⟨hlt, by rwa [List.get?_append hlt] at h⟩
  · subst heq
    rw [get?_snoc_eq] at h
    exact Or.inr ⟨rfl, (Option.some.inj h).symm⟩
  · exfalso
    have hlen : (l ++ [a]).length ≤ i := by
      simp only [List.length_append, List.length_singleton]
      omega
    rw [List.get?_eq_none.mpr hlen] at h
    exact Option.noConfusion h

theorem mem_fetch {all : List TaskRec} {r : List Nat} {t : TaskRec} :
    t ∈ fetch all r ↔ ∃ i ∈ r, all.get? i = some t := by
  unfold fetch
  rw [List.mem_filterMap]
  constructor
  · rintro ⟨i, hi, hg⟩
    exact ⟨i, List.mem_reverse.mp hi, hg⟩
  · rintro ⟨i, hi, hg⟩
    exact ⟨i, List.mem_reverse.mpr hi, hg⟩

theorem AllProp_snoc {all : List TaskRec} {idx : List Nat} {P : TaskRec → Prop}
    {a : TaskRec} (h : AllProp all idx P) : AllProp (all ++ [a]) idx P := by
  intro i hi
  obtain ⟨t, ht, hp⟩ := h i hi
  exact ⟨t, by rw [List.get?_append (get?_some_lt ht)]; exact ht, hp⟩

theorem AllProp_snoc_push {all : List TaskRec} {idx : List Nat} {P : TaskRec → Prop}
    {a : TaskRec} (h : AllProp all idx P) (hp : P a) :
    AllProp (all ++ [a]) (all.length :: idx) P := by
  intro i hi
  rcases List.mem_cons.mp hi with rfl | hi'
  · exact ⟨a, get?_snoc_eq all a, hp⟩
  · exact AllProp_snoc h i hi'

theorem AllProp_mut {rest : List TaskRec} {t t' : TaskRec} {idx : List Nat}
    {P : TaskRec → Prop} (h : AllProp (rest ++ [t]) idx P) (hpt : P t → P t') :
    AllProp (rest ++ [t']) idx P := by
  intro i hi
  obtain ⟨u, hu, hp⟩ := h i hi
  rcases get?_snoc_cases hu with ⟨hlt, hg⟩ | ⟨rfl, rfl⟩
  · exact ⟨u, by rw [List.get?_append hlt]; exact hg, hp⟩
  · exact ⟨t', get?_snoc_eq rest t', hpt hp⟩

theorem DonePred_snoc {all : List TaskRec} {doneR doneR' : List Nat} {a : TaskRec}
    (h : DonePred all doneR) (hsub : ∀ j ∈ doneR, j ∈ doneR')
    (ha : a.done = true → all.length ∈ doneR') :
    DonePred (all ++ [a]) doneR' := by
  intro i u hu hd
  rcases get?_snoc_cases hu with ⟨hlt, hg⟩ | ⟨rfl, rfl⟩
  · exact hsub i (h i u hg hd)
  · exact ha hd

theorem DonePred_mut {rest : List TaskRec} {t t' : TaskRec} {doneR : List Nat}
    (h : DonePred (rest ++ [t]) doneR) (hd : t'.done = t.done) :
    DonePred (rest ++ [t']) doneR := by
  intro i u hu hdone
  rcases get?_snoc_cases hu with ⟨hlt, hg⟩ | ⟨rfl, rfl⟩
  · exact h i u (by rw [List.get?_append hlt]; exact hg) hdone
  · exact h rest.length t (get?_snoc_eq rest t) (by rw [← hd]; exact hdone)

theorem newTaskOf_done (fmt : String) (cs : Option String)
    (line rawTitle rawRest : List Char) (dn : Bool) :
    (newTaskOf fmt cs line rawTitle rawRest dn).done = dn := rfl

theorem newTaskOf_sectionKey (fmt : String) (cs : Option String)
    (line rawTitle rawRest : List Char) (dn : Bool) :
    (newTaskOf fmt cs line rawTitle rawRest dn).sectionKey = cs := rfl

theorem pushSection_revAll (st : PState) (k : String) (i : Nat) :
    (pushSection st k i).revAll = st.revAll := by
  unfold pushSection
  split_ifs <;> rfl

theorem pushSection_dueR (st : PState) (k : String) (i : Nat) :
    (pushSection st k i).dueR = st.dueR := by
  unfold pushSection
  split_ifs <;> rfl

theorem pushSection_doneR_imp {st : PState} {k : String} {i j : Nat}
    (hj : j ∈ (pushSection st k i).doneR) :
    (j = i ∧ k = "done") ∨ j ∈ st.doneR := by
  unfold pushSection at hj
  split_ifs at hj with h1 h2 h3 h4 h5 h6
  · exact Or.inr hj
  · exact Or.inr hj
  · exact Or.inr hj
  · exact Or.inr hj
  · exact Or.inr hj
  · rcases List.mem_cons.mp hj with rfl | hj'
    · exact Or.inl ⟨rfl, h6⟩
    · exact Or.inr hj'
  · exact Or.inr hj

theorem pushSection_doneR_sup {st : PState} {k : String} {i j : Nat}
    (hj : j ∈ st.doneR) : j ∈ (pushSection st k i).doneR := by
  unfold pushSection
  split_ifs <;> first | exact hj | exact List.mem_cons_of_mem _ hj

theorem pushSection_q1R_imp {st : PState} {k : String} {i j : Nat}
    (hj : j ∈ (pushSection st k i).q1R) : j = i ∨ j ∈ st.q1R := by
  unfold pushSection at hj
  split_ifs at hj <;> first | exact Or.inr hj | exact List.mem_cons.mp hj

theorem pushSection_q2R_imp {st : PState} {k : String} {i j : Nat}
    (hj : j ∈ (pushSection st k i).q2R) : j = i ∨ j ∈ st.q2R := by
  unfold pushSection at hj
  split_ifs at hj <;> first | exact Or.inr hj | exact List.mem_cons.mp hj

theorem pushSection_q3R_imp {st : PState} {k : String} {i j : Nat}
    (hj : j ∈ (pushSection st k i).q3R) : j = i ∨ j ∈ st.q3R := by
  unfold pushSection at hj
  split_ifs at hj <;> first | exact Or.inr hj | exact List.mem_cons.mp hj

theorem pushSection_teamR_imp {st : PState} {k : String} {i j : Nat}
    (hj : j ∈ (pushSection st k i).teamR) : j = i ∨ j ∈ st.teamR := by
  unfold pushSection at hj
  split_ifs at hj <;> first | exact Or.inr hj | exact List.mem_cons.mp hj

theorem pushSection_backlogR_imp {st : PState} {k : String} {i j : Nat}
    (hj : j ∈ (pushSection st k i).backlogR) : j = i ∨ j ∈ st.backlogR := by
  unfold pushSection at hj
  split_ifs at hj <;> first | exact Or.inr hj | exact List.mem_cons.mp hj

theorem pushSection_inv {today : Nat} {st : PState} {t : TaskRec} {k : String}
    (hdone : t.done = false) (hsec : t.sectionKey = some k)
    (h : StInv today st) :
    StInv today (pushSection { st with revAll := t :: st.revAll } k st.revAll.length) := by
  obtain ⟨h1, h2, h3, h4, h5, h6, h7, h8⟩ := h
  have hlen : st.revAll.reverse.length = st.revAll.length := List.length_reverse _
  have hrev : (pushSection { st with revAll := t :: st.revAll } k st.revAll.length).revAll.reverse
      = st.revAll.reverse ++ [t] := by
    rw [pushSection_revAll]
    exact List.reverse_cons t st.revAll
  have hget : (st.revAll.reverse ++ [t]).get? st.revAll.length = some t := by
    rw [← hlen]
    exact get?_snoc_eq _ t
  refine ⟨?_, ?_, ?_, ?_, ?_, ?_, ?_, ?_⟩
  · rw [hrev]
    intro j hj
    rcases pushSection_doneR_imp hj with ⟨rfl, rfl⟩ | hj'
    · exact ⟨t, hget, Or.inr hsec⟩
    · exact AllProp_snoc h1 j hj'
  · rw [hrev]
    intro j hj
    rcases pushSection_q1R_imp hj with rfl | hj'
    · exact ⟨t, hget, hdone⟩
    · exact AllProp_snoc h2 j hj'
  · rw [hrev]
    intro j hj
    rcases pushSection_q2R_imp hj with rfl | hj'
    · exact ⟨t, hget, hdone⟩
    · exact AllProp_snoc h3 j hj'
  · rw [hrev]
    intro j hj
    rcases pushSection_q3R_imp hj with rfl | hj'
    · exact ⟨t, hget, hdone⟩
    · exact AllProp_snoc h4 j hj'
  · rw [hrev]
    intro j hj
    rcases pushSection_teamR_imp hj with rfl | hj'
    · exact ⟨t, hget, hdone⟩
    · exact AllProp_snoc h5 j hj'
  · rw [hrev]
    intro j hj
    rcases pushSection_backlogR_imp hj with rfl | hj'
    · exact ⟨t, hget, hdone⟩
    · exact AllProp_snoc h6 j hj'
  · rw [hrev]
    refine DonePred_snoc h7 (fun j hj => pushSection_doneR_sup hj) ?_
    intro hcontra
    rw [hdone] at hcontra
    exact Bool.noConfusion hcontra
  · rw [hrev, pushSection_dueR]
    exact AllProp_snoc h8

theorem bucketTask_inv {today : Nat} {st : PState} {t : TaskRec} {dn : Bool}
    (hdone : t.done = dn) (hsec : t.sectionKey = st.currentSection)
    (h : StInv today st) :
    StInv today
      (bucketTask { st with revAll := t :: st.revAll } st.currentSection
        st.revAll.length dn) := by
  obtain ⟨h1, h2, h3, h4, h5, h6, h7, h8⟩ := h
  have hlen : st.revAll.reverse.length = st.revAll.length := List.length_reverse _
  have hget : (st.revAll.reverse ++ [t]).get? st.revAll.length = some t := by
    rw [← hlen]
    exact get?_snoc_eq _ t
  cases dn with
  | true =>
    show StInv today ({ st with revAll := t :: st.revAll, doneR := st.revAll.length :: st.doneR } : PState)
    have hrev : ({ st with revAll := t :: st.revAll, doneR := st.revAll.length :: st.doneR } : PState).revAll.reverse
        = st.revAll.reverse ++ [t] := List.reverse_cons t st.revAll
    refine ⟨?_, ?_, ?_, ?_, ?_, ?_, ?_, ?_⟩
    · rw [hrev]
      intro j hj
      rcases List.mem_cons.mp hj with rfl | hj'
      · exact ⟨t, hget, Or.inl hdone⟩
      · exact AllProp_snoc h1 j hj'
    · rw [hrev]; exact AllProp_snoc h2
    · rw [hrev]; exact AllProp_snoc h3
    · rw [hrev]; exact AllProp_snoc h4
    · rw [hrev]; exact AllProp_snoc h5
    · rw [hrev]; exact AllProp_snoc h6
    · rw [hrev]
      refine DonePred_snoc h7 (fun j hj => List.mem_cons_of_mem _ hj) ?_
      intro _
      rw [hlen]
      exact List.mem_cons_self _ _
    · rw [hrev]; exact AllProp_snoc h8
  | false =>
    cases hcs : st.currentSection with
    | some k =>
      have hinv' : StInv today ({ st with currentSection := some k } : PState) :=
        ⟨h1, h2, h3, h4, h5, h6, h7, h8⟩
      exact @pushSection_inv today { st with currentSection := some k } t k hdone
        (hsec.trans hcs) hinv'
    | none =>
      show StInv today ({ st with currentSection := none, revAll := t :: st.revAll } : PState)
      have hrev : ({ st with currentSection := none, revAll := t :: st.revAll } : PState).revAll.reverse
          = st.revAll.reverse ++ [t] := List.reverse_cons t st.revAll
      refine ⟨?_, ?_, ?_, ?_, ?_, ?_, ?_, ?_⟩
      · rw [hrev]; exact AllProp_snoc h1
      · rw [hrev]; exact AllProp_snoc h2
      · rw [hrev]; exact AllProp_snoc h3
      · rw [hrev]; exact AllProp_snoc h4
      · rw [hrev]; exact AllProp_snoc h5
      · rw [hrev]; exact AllProp_snoc h6
      · rw [hrev]
        refine DonePred_snoc h7 (fun j hj => hj) ?_
        intro hcontra
        rw [hdone] at hcontra
        exact Bool.noConfusion hcontra
      · rw [hrev]; exact AllProp_snoc h8

theorem dueTask_inv {today : Nat} {st2 : PState} {i : Nat} {t : TaskRec}
    {due : Option String}
    (hget : st2.revAll.reverse.get? i = some t)
    (hdone : t.done = false) (hdue : t.due = due)
    (h : StInv today st2) :
    StInv today (dueTask today st2 i false due) := by
  have hval : dueTask today st2 i false due = st2 ∨
      (dueTask today st2 i false due = { st2 with dueR := i :: st2.dueR } ∧
        ∃ s d, due = some s ∧ strptimeDate s = some d ∧ dateOrd d = today) := by
    unfold dueTask
    cases due with
    | none => exact Or.inl (by simp)
    | some s =>
      by_cases hs : s = ""
      · exact Or.inl (by simp [hs])
      · cases hp : strptimeDate s with
        | none => exact Or.inl (by simp [hs, hp])
        | some d =>
          by_cases hd : dateOrd d = today
          · exact Or.inr ⟨by simp [hs, hp, hd], s, d, rfl, hp, hd⟩
          · exact Or.inl (by simp [hs, hp, hd])
  obtain ⟨h1, h2, h3, h4, h5, h6, h7, h8⟩ := h
  rcases hval with hv | ⟨hv, s, d, hde, hp, hd⟩
  · rw [hv]
    exact ⟨h1, h2, h3, h4, h5, h6, h7, h8⟩
  · rw [hv]
    refine ⟨h1, h2, h3, h4, h5, h6, h7, ?_⟩
    intro j hj
    rcases List.mem_cons.mp hj with rfl | hj'
    · exact ⟨t, hget, hdone, s, d, by rw [hdue, hde], hp, hd⟩
    · exact h8 j hj'

theorem bucketTask_revAll (st1 : PState) (cs : Option String) (i : Nat) (dn : Bool) :
    (bucketTask st1 cs i dn).revAll = st1.revAll := by
  unfold bucketTask
  cases dn with
  | true => rfl
  | false =>
    cases cs with
    | some k => exact pushSection_revAll _ _ _
    | none => rfl

theorem taskStep_inv {fmt : String} {today : Nat} {st : PState}
    {line rawTitle rawRest : List Char} {dn : Bool} (h : StInv today st) :
    StInv today (taskStep fmt today st line rawTitle rawRest dn) := by
  have hb := @bucketTask_inv today st
    (newTaskOf fmt st.currentSection line rawTitle rawRest dn) dn rfl rfl h
  cases dn with
  | true => exact hb
  | false =>
    refine dueTask_inv ?_ rfl rfl hb
    rw [bucketTask_revAll, List.reverse_cons, ← List.length_reverse st.revAll]
    exact get?_snoc_eq _ _

theorem applyMeta_inv {fmt : String} {today : Nat} {st : PState} {line : List Char}
    (h : StInv today st) : StInv today (applyMeta fmt st line) := by
  obtain ⟨h1, h2, h3, h4, h5, h6, h7, h8⟩ := h
  simp only [applyMeta]
  by_cases hf : fmt = "legacy"
  case neg => rw [if_neg hf]; exact ⟨h1, h2, h3, h4, h5, h6, h7, h8⟩
  rw [if_pos hf]
  by_cases hd : ("due:".data.isPrefixOf (pyLower (pstrip ((pstrip line).drop 2)))) = true
  · rw [if_pos hd]
    cases hr : st.revAll with
    | nil => simp only [hr]; exact ⟨h1, h2, h3, h4, h5, h6, h7, h8⟩
    | cons t rest =>
      simp only [hr]
      rw [hr, List.reverse_cons] at h1 h2 h3 h4 h5 h6 h7 h8
      by_cases hfal : (t.due = none ∨ t.due = some "")
      · rw [if_pos hfal]
        refine ⟨?_, ?_, ?_, ?_, ?_, ?_, ?_, ?_⟩ <;>
          simp only [List.reverse_cons]
        · exact AllProp_mut h1 (fun hp => hp)
        · exact AllProp_mut h2 (fun hp => hp)
        · exact AllProp_mut h3 (fun hp => hp)
        · exact AllProp_mut h4 (fun hp => hp)
        · exact AllProp_mut h5 (fun hp => hp)
        · exact AllProp_mut h6 (fun hp => hp)
        · exact DonePred_mut h7 rfl
        · refine AllProp_mut h8 (fun hp => ?_)
          exfalso
          obtain ⟨_, s, d, hs, hpd, _⟩ := hp
          rcases hfal with hn | hn <;> rw [hn] at hs
          · exact Option.noConfusion hs
          · have hse : s = "" := (Option.some.inj hs).symm
            rw [hse] at hpd
            exact Option.noConfusion hpd
      · rw [if_neg hfal]
        rw [← List.reverse_cons, ← hr] at h1 h2 h3 h4 h5 h6 h7 h8
        exact ⟨h1, h2, h3, h4, h5, h6, h7, h8⟩
  · rw [if_neg hd]
    by_cases hb : ("blocks:".data.isPrefixOf (pyLower (pstrip ((pstrip line).drop 2)))) = true
    · rw [if_pos hb]
      cases hr : st.revAll with
      | nil => simp only [hr]; exact ⟨h1, h2, h3, h4, h5, h6, h7, h8⟩
      | cons t rest =>
        simp only [hr]
        rw [hr, List.reverse_cons] at h1 h2 h3 h4 h5 h6 h7 h8
        refine ⟨?_, ?_, ?_, ?_, ?_, ?_, ?_, ?_⟩ <;>
          simp only [List.reverse_cons]
        · exact AllProp_mut h1 (fun hp => hp)
        · exact AllProp_mut h2 (fun hp => hp)
        · exact AllProp_mut h3 (fun hp => hp)
        · exact AllProp_mut h4 (fun hp => hp)
        · exact AllProp_mut h5 (fun hp => hp)
        · exact AllProp_mut h6 (fun hp => hp)
        · exact DonePred_mut h7 rfl
        · exact AllProp_mut h8 (fun hp => hp)
    · rw [if_neg hb]
      exact ⟨h1, h2, h3, h4, h5, h6, h7, h8⟩

theorem stepLine_inv {personal : Bool} {fmt : String} {today : Nat} {st : PState}
    {line : List Char} (h : StInv today st) :
    StInv today (stepLine personal fmt today st line) := by
  unfold stepLine
  split
  · split
    · exact h
    · exact h
  · split
    · exact taskStep_inv h
    · split
      · exact applyMeta_inv h
      · exact h

theorem initPState_inv (today : Nat) : StInv today initPState := by
  refine ⟨?_, ?_, ?_, ?_, ?_, ?_, ?_, ?_⟩
  · intro i hi; cases hi
  · intro i hi; cases hi
  · intro i hi; cases hi
  · intro i hi; cases hi
  · intro i hi; cases hi
  · intro i hi; cases hi
  · intro i u hu hd
    simp [initPState] at hu
  · intro i hi; cases hi

theorem foldl_stepLine_inv {personal : Bool} {fmt : String} {today : Nat}
    (L : List (List Char)) (st : PState) (h : StInv today st) :
    StInv today (L.foldl (stepLine personal fmt today) st) := by
  induction L generalizing st with
  | nil => exact h
  | cons l L ih => exact ih _ (stepLine_inv h)

theorem parseState_inv (content : String) (personal : Bool) (fmt : String)
    (today : Nat) : StInv today (parseState content personal fmt today) :=
  foldl_stepLine_inv _ _ (initPState_inv today)

theorem parse_tasks_all_eq (content : String) (personal : Bool) (fmt : String)
    (today : Nat) :
    (parse_tasks content personal fmt today).all
      = (parseState content personal fmt today).revAll.reverse := rfl

/-- Transfer a bucket-certifying `AllProp` into a fact about the
materialized bucket. -/
theorem fetch_prop {all : List TaskRec} {idx : List Nat} {P : TaskRec → Prop}
    (h : AllProp all idx P) : ∀ t ∈ fetch all idx, P t ∧ t ∈ all := by
  intro t ht
  obtain ⟨i, hi, hg⟩ := mem_fetch.mp ht
  obtain ⟨u, hu, hp⟩ := h i hi
  have heq : u = t := Option.some.inj (hu.symm.trans hg)
  subst heq
  exact ⟨hp, List.get?_mem hg⟩

/-- The full behavioral characterization of the parse buckets, proved
from the fold invariant: what membership in each bucket implies, and
that every done-flagged task reaches the done bucket. -/
theorem parse_spec (content : String) (personal : Bool) (fmt : String) (today : Nat) :
    (∀ t ∈ (parse_tasks content personal fmt today).done,
        (t.done = true ∨ t.sectionKey = some "done")
          ∧ t ∈ (parse_tasks content personal fmt today).all) ∧
    (∀ t ∈ (parse_tasks content personal fmt today).q1,
        t.done = false ∧ t ∈ (parse_tasks content personal fmt today).all) ∧
    (∀ t ∈ (parse_tasks content personal fmt today).q2,
        t.done = false ∧ t ∈ (parse_tasks content personal fmt today).all) ∧
    (∀ t ∈ (parse_tasks content personal fmt today).q3,
        t.done = false ∧ t ∈ (parse_tasks content personal fmt today).all) ∧
    (∀ t ∈ (parse_tasks content personal fmt today).team,
        t.done = false ∧ t ∈ (parse_tasks content personal fmt today).all) ∧
    (∀ t ∈ (parse_tasks content personal fmt today).backlog,
        t.done = false ∧ t ∈ (parse_tasks content personal fmt today).all) ∧
    (∀ t ∈ (parse_tasks content personal fmt today).all, t.done = true →
        t ∈ (parse_tasks content personal fmt today).done) ∧
    (∀ t ∈ (parse_tasks content personal fmt today).due_today,
        DueOk today t ∧ t ∈ (parse_tasks content personal fmt today).all) := by
  obtain ⟨h1, h2, h3, h4, h5, h6, h7, h8⟩ :=
    parseState_inv content personal fmt today
  refine ⟨fetch_prop h1, fetch_prop h2, fetch_prop h3, fetch_prop h4,
    fetch_prop h5, fetch_prop h6, ?_, fetch_prop h8⟩
  intro t ht hd
  obtain ⟨i, hg⟩ := List.get?_of_mem ht
  exact mem_fetch.mpr ⟨i, h7 i t hg hd, hg⟩

/- ---------------------------------------------------------------------
Claim theorems.
--------------------------------------------------------------------- -/

/-- Claim C5: the due predicate.  Empty string: true exactly for the
`today` kind.  A string that parses as a date: `today` means
`due <= today`, `this-week` means `due <=` the Sunday ending the current
week (`weekEnd`, which is indeed a Sunday at or after today), `overdue`
means `due < today`.  Unparseable non-empty strings are false for
`this-week` and `overdue`.  The three concrete examples of the spec are
included. -/
theorem claimC5_theorem (today : Nat) (due : String) :
    (check_due_date "" "today" today = true) ∧
    (check_due_date "" "this-week" today = false) ∧
    (check_due_date "" "overdue" today = false) ∧
    (∀ d, strptimeDate due = some d →
      check_due_date due "today" today = decide (dateOrd d ≤ today) ∧
      check_due_date due "this-week" today = decide (dateOrd d ≤ weekEnd today) ∧
      check_due_date due "overdue" today = decide (dateOrd d < today)) ∧
    (due ≠ "" → strptimeDate due = none →
      check_due_date due "this-week" today = false ∧
      check_due_date due "overdue" today = false) ∧
    pyWeekday (weekEnd today) = 6 ∧ today ≤ weekEnd today ∧
    (check_due_date "2026-01-10" "overdue" (dateOrd (2026, 1, 15)) = true) ∧
    (check_due_date "2026-01-20" "overdue" (dateOrd (2026, 1, 15)) = false) := by
  refine ⟨rfl, rfl, rfl, ?_, ?_, ?_, Nat.le_add_right _ _, by decide, by decide⟩
  · intro d hd
    have hne : due ≠ "" := by
      intro he
      rw [he] at hd
      exact Option.noConfusion hd
    refine ⟨?_, ?_, ?_⟩ <;> simp [check_due_date, hne, hd]
  · intro hne hnone
    refine ⟨?_, ?_⟩ <;> simp [check_due_date, hne, hnone]
  · unfold pyWeekday weekEnd pyWeekday
    omega

/-- Witness for C5 at concrete inputs: the date-parsing conjunct at
`2026-01-10` against today `2026-01-15`, and the unparseable conjunct at
`"zz"`. -/
theorem claimC5_witness :
    strptimeDate "2026-01-10" = some (2026, 1, 10) ∧
    check_due_date "2026-01-10" "overdue" (dateOrd (2026, 1, 15))
      = decide (dateOrd (2026, 1, 10) < dateOrd (2026, 1, 15)) ∧
    check_due_date "zz" "this-week" 5 = false :=
  ⟨by decide,
   ((claimC5_theorem (dateOrd (2026, 1, 15)) "2026-01-10").2.2.2.1
      (2026, 1, 10) (by decide)).2.2,
   ((claimC5_theorem 5 "zz").2.2.2.2.1 (by decide) (by decide)).1⟩

/-- Claim C10: every non-empty due string that `strptime` rejects makes
the due predicate false for every kind, including `today`. -/
theorem claimC10_theorem (due kind : String) (today : Nat)
    (h1 : due ≠ "") (h2 : strptimeDate due = none) :
    check_due_date due kind today = false := by
  simp [check_due_date, h1, h2]

/-- Witness for C10 at the unparseable string `"notadate"` with kind
`today`. -/
theorem claimC10_witness :
    "notadate" ≠ "" ∧ strptimeDate "notadate" = none ∧
    check_due_date "notadate" "today" 99 = false :=
  ⟨by decide, by decide, claimC10_theorem "notadate" "today" 99 (by decide) (by decide)⟩

/-- Claim C8: the status filter keeps exactly the members of the active
base set (priority bucket or all) whose normalized status field equals
the normalized status argument. -/
theorem claimC8_theorem (r : ParseResult) (priority : Option String)
    (status : String) (t : TaskRec) :
    t ∈ status_filter (base_set r priority) status ↔
      (t ∈ base_set r priority ∧ normStatus t.get_status = normStatus status) := by
  simp [status_filter, List.mem_filter]

/-- Claim C7 (code bug): a task line carrying an inline `owner::alice`
token parses, and the owner search the source runs does find the value
`alice`, but the produced task dict has no `owner` key at all — the
field loop stores only `area` and discards the owner value. -/
theorem claimC7_theorem :
    ((parse_tasks "- [ ] **T** owner::alice" false "obsidian" 0).all.map taskKeys)
      = [["title", "done", "section", "due", "area", "raw_line"]] ∧
    ((parse_tasks "- [ ] **T** owner::alice" false "obsidian" 0).all.map TaskRec.title)
      = ["T"] ∧
    searchField "owner::".data "owner::alice".data = some "alice".data := by
  refine ⟨?_, ?_, ?_⟩ <;> decide

/-- Claim C3 (code bug): on the unique-fuzzy-match path, `done_task`
reads `task['raw_lines'][0]` from a dict whose only line key is
`raw_line`, so the operation raises `KeyError` instead of rewriting the
checkbox; shown at a document where the query resolves to exactly one
not-done task. -/
theorem claimC3_theorem :
    done_task "## 🔴 Q1: A\n- [ ] **Ship report**" "ship" false 0
      = .error (.keyError "raw_lines") ∧
    (doneMatches "## 🔴 Q1: A\n- [ ] **Ship report**" "ship" false 0).length = 1 ∧
    ((parse_tasks "## 🔴 Q1: A\n- [ ] **Ship report**" false "obsidian" 0).all.map
        (fun t => (taskKeys t).contains "raw_lines")) = [false] ∧
    ((parse_tasks "## 🔴 Q1: A\n- [ ] **Ship report**" false "obsidian" 0).all.map
        (fun t => (taskKeys t).contains "raw_line")) = [true] := by
  refine ⟨by decide, by decide, by decide, by decide⟩

/-- Claim C6 counterexample: in the document `## ✅ D\n- [ ] **t**` the
task has `done = false`, yet it is placed in the done bucket (the
`elif current_section` branch appends to `result['done']` whenever the
governing header is the ✅ section), refuting "a task whose done flag is
false never appears in the done bucket". -/
theorem claimC6_counterexample :
    ((parse_tasks "## ✅ D\n- [ ] **t**" false "obsidian" 0).done.map TaskRec.done)
      = [false] ∧
    ((parse_tasks "## ✅ D\n- [ ] **t**" false "obsidian" 0).done.map TaskRec.title)
      = ["t"] := by
  refine ⟨by decide, by decide⟩

/-- Claim C6 as amended: every done-flagged task of a parse is in the
done bucket and in none of the priority buckets; membership in the done
bucket implies the task is done-flagged or its section is the done
section (an unchecked task under a ✅ header also lands there). -/
theorem claimC6_theorem (content : String) (personal : Bool) (fmt : String)
    (today : Nat) :
    (∀ t ∈ (parse_tasks content personal fmt today).all, t.done = true →
      t ∈ (parse_tasks content personal fmt today).done ∧
      t ∉ (parse_tasks content personal fmt today).q1 ∧
      t ∉ (parse_tasks content personal fmt today).q2 ∧
      t ∉ (parse_tasks content personal fmt today).q3 ∧
      t ∉ (parse_tasks content personal fmt today).team ∧
      t ∉ (parse_tasks content personal fmt today).backlog) ∧
    (∀ t ∈ (parse_tasks content personal fmt today).done,
      t.done = true ∨ t.sectionKey = some "done") := by
  obtain ⟨p1, p2, p3, p4, p5, p6, p7, _⟩ := parse_spec content personal fmt today
  constructor
  · intro t ht hd
    refine ⟨p7 t ht hd, ?_, ?_, ?_, ?_, ?_⟩ <;> intro hmem
    · rw [(p2 t hmem).1] at hd; exact Bool.noConfusion hd
    · rw [(p3 t hmem).1] at hd; exact Bool.noConfusion hd
    · rw [(p4 t hmem).1] at hd; exact Bool.noConfusion hd
    · rw [(p5 t hmem).1] at hd; exact Bool.noConfusion hd
    · rw [(p6 t hmem).1] at hd; exact Bool.noConfusion hd
  · intro t ht
    exact (p1 t ht).1

/-- Witness for C6 at a concrete document with a checked task under a 🔴
header: the task is in the done bucket and absent from q1. -/
theorem claimC6_witness :
    (⟨"d", true, some "q1", none, none, "- [x] **d**", none⟩ : TaskRec)
        ∈ (parse_tasks "## 🔴 A\n- [x] **d**" false "obsidian" 0).done ∧
    decide ((⟨"d", true, some "q1", none, none, "- [x] **d**", none⟩ : TaskRec)
        ∈ (parse_tasks "## 🔴 A\n- [x] **d**" false "obsidian" 0).q1) = false := by
  have h := ( claimC6_theorem "## 🔴 A\n- [x] **d**" false "obsidian" 0).1
    ⟨"d", true, some "q1", none, none, "- [x] **d**", none⟩ (by decide) (by decide)
  refine ⟨h.1, ?_⟩
  have h2 := h.2.1
  simpa using h2

/-- Claim C9: `parse_tasks` is total in every dialect — the embedding is
a structurally recursive function, so no input raises — and returns a
record with all eight buckets; moreover every member of `due_today` is a
non-done task of `all` whose due string parses as a date equal to today,
so a malformed due string never reaches `due_today` (the `ValueError`
is swallowed). -/
theorem claimC9_theorem (content : String) (personal : Bool) (fmt : String)
    (today : Nat) :
    (∃ b1 b2 b3 b4 b5 b6 b7 b8,
      parse_tasks content personal fmt today = ⟨b1, b2, b3, b4, b5, b6, b7, b8⟩) ∧
    (∀ t ∈ (parse_tasks content personal fmt today).due_today,
      t ∈ (parse_tasks content personal fmt today).all ∧ t.done = false ∧
        ∃ s d, t.due = some s ∧ strptimeDate s = some d ∧ dateOrd d = today) := by
  obtain ⟨_, _, _, _, _, _, _, p8⟩ := parse_spec content personal fmt today
  refine ⟨⟨_, _, _, _, _, _, _, _, rfl⟩, ?_⟩
  intro t ht
  obtain ⟨⟨hdone, s, d, hs, hp, hd⟩, hall⟩ := p8 t ht
  exact ⟨hall, hdone, s, d, hs, hp, hd⟩

/-- Witness for C9 at a document whose single task is due today. -/
theorem claimC9_witness :
    (⟨"T", false, none, some "2026-01-15", none, "- [ ] **T** 🗓️2026-01-15", none⟩ : TaskRec)
        ∈ (parse_tasks "- [ ] **T** 🗓️2026-01-15" false "obsidian"
            (dateOrd (2026, 1, 15))).all ∧
    ∃ s d, (some "2026-01-15" : Option String) = some s ∧ strptimeDate s = some d ∧
      dateOrd d = dateOrd (2026, 1, 15) := by
  have h := ( claimC9_theorem "- [ ] **T** 🗓️2026-01-15" false "obsidian"
      (dateOrd (2026, 1, 15))).2
    ⟨"T", false, none, some "2026-01-15", none, "- [ ] **T** 🗓️2026-01-15", none⟩
    (by decide)
  exact ⟨h.1, h.2.2⟩

theorem sectionFind_none {lit : List Char} {s : List Char}
    (h : containsSub s lit = false) : sectionFind lit s = none := by
  induction s with
  | nil => rfl
  | cons c t ih =>
    unfold containsSub at h
    by_cases hp : (lit.isPrefixOf (c :: t)) = true
    · rw [if_pos hp] at h
      exact Bool.noConfusion h
    · rw [if_neg hp] at h
      unfold sectionFind
      rw [if_neg hp, ih h]
      rfl

/-- Claim C4: error paths never write.  Zero fuzzy matches or more than
one fuzzy match make `done_task` return the NotFound / Ambiguous report
without a write (the `Except.error` result carries no document), and a
document not containing the target section header makes `add_task`
return section-not-found without a write. -/
theorem claimC4_theorem (content query : String) (personal : Bool) (today : Nat)
    (title priority : String) (due : Option String) (owner : String)
    (area : Option String) :
    (doneMatches content query personal today = [] →
      done_task content query personal today = .error .notFound) ∧
    (1 < (doneMatches content query personal today).length →
      done_task content query personal today
        = .error (.ambiguous
            ((doneMatches content query personal today).map (fun t => t.title)))) ∧
    (containsSub content.data ("## " ++ prioritySectionOf priority).data = false →
      add_task content title priority due owner area
        = .error (.sectionNotFound (prioritySectionOf priority))) := by
  refine ⟨?_, ?_, ?_⟩
  · intro h
    simp [done_task, h]
  · intro h
    have hne : doneMatches content query personal today ≠ [] := by
      intro he
      rw [he] at h
      simp at h
    simp [done_task, hne, h]
  · intro h
    have hn := sectionFind_none (s := content.data) h
    simp only [add_task]
    rw [hn]

/-- Witness for C4: the three error paths at concrete documents — a
query matching nothing, a query matching two tasks, and a high-priority
insert into a document lacking a `## 🔴 Q1` header. -/
theorem claimC4_witness :
    done_task "- [ ] **A**" "zzz" false 0 = .error .notFound ∧
    done_task "- [ ] **Ship report**\n- [ ] **Ship invoice**" "ship" false 0
      = .error (.ambiguous ["Ship report", "Ship invoice"]) ∧
    add_task "## 🟡 Q2: B\n- [ ] **x**\n" "T" "high" none "me" none
      = .error (.sectionNotFound "🔴 Q1") := by
  refine ⟨?_, ?_, ?_⟩
  · exact ( claimC4_theorem "- [ ] **A**" "zzz" false 0 "T" "high" none "me" none).1
      (by decide)
  · have h := ( claimC4_theorem "- [ ] **Ship report**\n- [ ] **Ship invoice**" "ship"
      false 0 "T" "high" none "me" none).2.1 (by decide)
    rw [h]
    decide
  · exact ( claimC4_theorem "## 🟡 Q2: B\n- [ ] **x**\n" "zzz" false 0 "T" "high"
      none "me" none).2.2 (by decide)

/-- Claim C1 counterexample: in the default Obsidian dialect a `due:`
continuation line beneath a task with no inline date does not set the
task's due field — continuations are processed only in the legacy
dialect. -/
theorem claimC1_counterexample :
    ((parse_tasks "- [ ] **T**\n  - due: 2026-01-01" false "obsidian" 0).all.map
        TaskRec.due) = [none] ∧
    ((parse_tasks "- [ ] **T**\n  - due: 2026-01-01" false "obsidian" 0).all.map
        TaskRec.title) = ["T"] := by
  refine ⟨by decide, by decide⟩

/-- Claim C1 as amended, at the granularity of one loop iteration on a
continuation line (a non-header, non-task line starting `  - ` while a
current task exists): the obsidian dialect ignores it entirely; in the
legacy dialect a `due:` payload sets the current task's due only when
due is unset (`None`/empty — in particular an inline date wins), a
`blocks:` payload always overwrites blocks (so the last one wins when
repeated), and any other payload — in particular `owner:` — changes
nothing, so an `owner:` continuation never sets owner. -/
theorem claimC1_theorem (personal : Bool) (today : Nat) (st : PState)
    (line : List Char) (t : TaskRec) (rest : List TaskRec)
    (hcur : st.revAll = t :: rest)
    (hhdr : ("## ".data.isPrefixOf line) = false)
    (htask : taskMatch line = none)
    (hcont : ("  - ".data.isPrefixOf line) = true) :
    (stepLine personal "obsidian" today st line = st) ∧
    (("due:".data.isPrefixOf (pyLower (pstrip ((pstrip line).drop 2))) = true) →
      stepLine personal "legacy" today st line
        = { st with revAll :=
            (if t.due = none ∨ t.due = some "" then
              { t with due := some (String.mk (pstrip (afterColon (pstrip ((pstrip line).drop 2))))) }
            else t) :: rest }) ∧
    (("due:".data.isPrefixOf (pyLower (pstrip ((pstrip line).drop 2))) = false) →
      ("blocks:".data.isPrefixOf (pyLower (pstrip ((pstrip line).drop 2))) = true) →
      stepLine personal "legacy" today st line
        = { st with revAll :=
            { t with blocks := some (String.mk (pstrip (afterColon (pstrip ((pstrip line).drop 2))))) } :: rest }) ∧
    (("due:".data.isPrefixOf (pyLower (pstrip ((pstrip line).drop 2))) = false) →
      ("blocks:".data.isPrefixOf (pyLower (pstrip ((pstrip line).drop 2))) = false) →
      stepLine personal "legacy" today st line = st) := by
  have hne : st.revAll ≠ [] := by
    rw [hcur]
    exact List.cons_ne_nil t rest
  refine ⟨?_, ?_, ?_, ?_⟩
  · simp [stepLine, hhdr, htask, hne, applyMeta]
  · intro hd
    simp [stepLine, applyMeta, hhdr, htask, hcont, hne, hd, hcur]
    split_ifs <;> first | rfl | rw [← hcur]
  · intro hd hb
    simp [stepLine, applyMeta, hhdr, htask, hcont, hne, hd, hb, hcur]
  · intro hd hb
    simp [stepLine, applyMeta, hhdr, htask, hcont, hne, hd, hb, hcur]

/-- Witness for C1 at a concrete parser state (one current task with no
due date) and concrete continuation lines: obsidian ignores a `due:`
continuation, legacy applies it, and legacy ignores an `owner:`
continuation. -/
theorem claimC1_witness :
    stepLine false "obsidian" 0
        ⟨some "q1", [⟨"X", false, some "q1", none, none, "- [ ] **X**", none⟩],
          [], [], [], [], [], [], []⟩
        "  - due: 2026-01-01".data
      = ⟨some "q1", [⟨"X", false, some "q1", none, none, "- [ ] **X**", none⟩],
          [], [], [], [], [], [], []⟩ ∧
    stepLine false "legacy" 0
        ⟨some "q1", [⟨"X", false, some "q1", none, none, "- [ ] **X**", none⟩],
          [], [], [], [], [], [], []⟩
        "  - due: 2026-01-01".data
      = ⟨some "q1",
          [⟨"X", false, some "q1", some "2026-01-01", none, "- [ ] **X**", none⟩],
          [], [], [], [], [], [], []⟩ ∧
    stepLine false "legacy" 0
        ⟨some "q1", [⟨"X", false, some "q1", none, none, "- [ ] **X**", none⟩],
          [], [], [], [], [], [], []⟩
        "  - owner: bob".data
      = ⟨some "q1", [⟨"X", false, some "q1", none, none, "- [ ] **X**", none⟩],
          [], [], [], [], [], [], []⟩ := by
  have h1 := claimC1_theorem false 0
    ⟨some "q1", [⟨"X", false, some "q1", none, none, "- [ ] **X**", none⟩],
      [], [], [], [], [], [], []⟩
    "  - due: 2026-01-01".data
    ⟨"X", false, some "q1", none, none, "- [ ] **X**", none⟩ []
    rfl (by decide) (by decide) (by decide)
  have h2 := claimC1_theorem false 0
    ⟨some "q1", [⟨"X", false, some "q1", none, none, "- [ ] **X**", none⟩],
      [], [], [], [], [], [], []⟩
    "  - owner: bob".data
    ⟨"X", false, some "q1", none, none, "- [ ] **X**", none⟩ []
    rfl (by decide) (by decide) (by decide)
  exact ⟨h1.1, h1.2.1 (by decide), h2.2.2.2 (by decide) (by decide)⟩

/- ---------------------------------------------------------------------
Claim C2 machinery: computation laws for `splitNL` and the done-section
substitution, and a fold lemma showing when the done bucket stays empty.
--------------------------------------------------------------------- -/

theorem splitNL_ne_nil (s : List Char) : splitNL s ≠ [] := by
  cases s with
  | nil => simp [splitNL]
  | cons c t =>
    unfold splitNL
    split_ifs
    · simp
    · cases splitNL t <;> simp

theorem splitNL_append (a b : List Char) :
    splitNL (a ++ '\n' :: b) = splitNL a ++ splitNL b := by
  induction a with
  | nil =>
    simp only [List.nil_append, splitNL]
    simp
  | cons c t ih =>
    simp only [List.cons_append, splitNL, List.append_eq]
    by_cases hc : c = '\n'
    · rw [if_pos hc, if_pos hc, ih]
      rfl
    · rw [if_neg hc, if_neg hc, ih]
      cases hsp : splitNL t with
      | nil => exact absurd hsp (splitNL_ne_nil t)
      | cons h r =>
        simp

theorem doneSubAux_nil (f : Nat) : doneSubAux f [] = [] := by
  cases f with
  | zero => rfl
  | succ f => rfl

theorem doneSubAux_no_match (f : Nat) (c : Char) (t : List Char)
    (h0 : litDone.isPrefixOf (c :: t) = false) :
    doneSubAux (f + 1) (c :: t) = c :: doneSubAux f t := by
  simp only [doneSubAux]
  rw [h0]
  simp

theorem doneSubAux_skip (a rest : List Char) (f : Nat)
    (hf : (a ++ rest).length ≤ f)
    (h : ∀ p, p < a.length → litDone.isPrefixOf ((a ++ rest).drop p) = false) :
    doneSubAux f (a ++ rest) = a ++ doneSubAux (f - a.length) rest := by
  induction a generalizing f with
  | nil => simp
  | cons c t ih =>
    cases f with
    | zero =>
      exfalso
      simp at hf
    | succ f' =>
      have h0 : litDone.isPrefixOf (c :: (t ++ rest)) = false := by
        have := h 0 (by simp)
        simpa using this
      simp only [List.cons_append]
      rw [doneSubAux_no_match f' c (t ++ rest) h0]
      rw [ih f' (by simp at hf ⊢; omega)
        (fun p hp => by
          have := h (p + 1) (by simp; omega)
          simpa using this)]
      simp [Nat.succ_sub_succ]

theorem findBnd_none (B : List Char)
    (h : ∀ p, ("\n## ".data.isPrefixOf (B.drop p) = false)
        ∧ ("\n---".data.isPrefixOf (B.drop p) = false)) :
    findBnd B = (B, [], []) := by
  induction B with
  | nil => rfl
  | cons c t ih =>
    have h0 := h 0
    simp only [List.drop_zero] at h0
    unfold findBnd
    rw [h0.1, h0.2]
    simp only [Bool.false_eq_true, if_false]
    rw [ih (fun p => by simpa using h (p + 1))]

theorem doneSubAux_fire (B : List Char) (f : Nat)
    (hb : ∀ p, ("\n## ".data.isPrefixOf (B.drop p) = false)
        ∧ ("\n---".data.isPrefixOf (B.drop p) = false)) :
    doneSubAux (f + 1) (litDone ++ '\n' :: '\n' :: B)
      = litDone ++ '\n' :: '\n' :: (donePlaceholder ++ ['\n', '\n']) := by
  have hpre : litDone.isPrefixOf (litDone ++ '\n' :: '\n' :: B) = true :=
    List.isPrefixOf_iff_prefix.mpr (List.prefix_append litDone _)
  have hdrop : (litDone ++ '\n' :: '\n' :: B).drop litDone.length = '\n' :: '\n' :: B :=
    List.drop_left litDone _
  have htake : (litDone ++ '\n' :: '\n' :: B).take (litDone.length + 0 + 2)
      = litDone ++ ['\n', '\n'] := by
    rw [show litDone ++ '\n' :: '\n' :: B = (litDone ++ ['\n', '\n']) ++ B from by simp]
    exact List.take_left' (by simp)
  have hdrop2 : (litDone ++ '\n' :: '\n' :: B).drop (litDone.length + 0 + 2) = B := by
    rw [show litDone ++ '\n' :: '\n' :: B = (litDone ++ ['\n', '\n']) ++ B from by simp]
    exact List.drop_left' (by simp)
  simp only [doneSubAux]
  rw [hpre, hdrop]
  simp only [if_pos]
  rw [show findDNL ('\n' :: '\n' :: B) = some 0 from rfl]
  simp only [htake, hdrop2, findBnd_none B hb, doneSubAux_nil]
  simp

theorem pushSection_currentSection (st : PState) (k : String) (i : Nat) :
    (pushSection st k i).currentSection = st.currentSection := by
  unfold pushSection
  split_ifs <;> rfl

theorem pushSection_doneR_ne {st : PState} {k : String} {i : Nat}
    (hk : k ≠ "done") : (pushSection st k i).doneR = st.doneR := by
  unfold pushSection
  split_ifs <;> simp_all

theorem dueTask_doneR (today : Nat) (st2 : PState) (i : Nat) (dn : Bool)
    (due : Option String) : (dueTask today st2 i dn due).doneR = st2.doneR := by
  unfold dueTask
  split_ifs
  · cases due with
    | none => rfl
    | some s =>
      by_cases hs : s = ""
      · simp [hs]
      · cases hstr : strptimeDate s with
        | none => simp [hs, hstr]
        | some d =>
          by_cases hd : dateOrd d = today
          · simp [hs, hstr, hd]
          · simp [hs, hstr, hd]
  · rfl

theorem dueTask_currentSection (today : Nat) (st2 : PState) (i : Nat) (dn : Bool)
    (due : Option String) :
    (dueTask today st2 i dn due).currentSection = st2.currentSection := by
  unfold dueTask
  split_ifs
  · cases due with
    | none => rfl
    | some s =>
      by_cases hs : s = ""
      · simp [hs]
      · cases hstr : strptimeDate s with
        | none => simp [hs, hstr]
        | some d =>
          by_cases hd : dateOrd d = today
          · simp [hs, hstr, hd]
          · simp [hs, hstr, hd]
  · rfl

theorem bucketTask_currentSection (st1 : PState) (cs : Option String) (i : Nat)
    (dn : Bool) : (bucketTask st1 cs i dn).currentSection = st1.currentSection := by
  unfold bucketTask
  cases dn with
  | true => rfl
  | false =>
    cases cs with
    | some k => exact pushSection_currentSection _ _ _
    | none => rfl

theorem bucketTask_doneR_ne {st1 : PState} {cs : Option String} {i : Nat}
    (hcs : cs ≠ some "done") : (bucketTask st1 cs i false).doneR = st1.doneR := by
  unfold bucketTask
  cases cs with
  | some k =>
    have hk : k ≠ "done" := by
      intro he
      exact hcs (by rw [he])
    simp only [Bool.false_eq_true, if_false]
    exact pushSection_doneR_ne hk
  | none => rfl

theorem applyMeta_doneR (fmt : String) (st : PState) (line : List Char) :
    (applyMeta fmt st line).doneR = st.doneR := by
  simp only [applyMeta]
  split_ifs
  · cases st.revAll with
    | nil => rfl
    | cons t rest =>
      by_cases hfal : (t.due = none ∨ t.due = some "") <;> simp [hfal]
  · cases st.revAll with
    | nil => rfl
    | cons t rest => rfl
  · rfl
  · rfl

theorem applyMeta_currentSection (fmt : String) (st : PState) (line : List Char) :
    (applyMeta fmt st line).currentSection = st.currentSection := by
  simp only [applyMeta]
  split_ifs
  · cases st.revAll with
    | nil => rfl
    | cons t rest =>
      by_cases hfal : (t.due = none ∨ t.due = some "") <;> simp [hfal]
  · cases st.revAll with
    | nil => rfl
    | cons t rest => rfl
  · rfl
  · rfl

theorem stepLine_safe {personal : Bool} {today : Nat} {st : PState} {l : List Char}
    (h1 : st.doneR = []) (h2 : st.currentSection ≠ some "done")
    (hl1 : lineNoDoneTask l = true) (hl2 : lineNotDoneHeader personal l = true) :
    (stepLine personal "obsidian" today st l).doneR = [] ∧
    (stepLine personal "obsidian" today st l).currentSection ≠ some "done" := by
  by_cases hh : ("## ".data.isPrefixOf l) = true
  · cases he : obsHeaderEmoji l with
    | some e =>
      have hv : stepLine personal "obsidian" today st l
          = { st with currentSection := sectionMapping personal e } := by
        unfold stepLine
        rw [if_pos hh, if_pos rfl, he]
      rw [hv]
      refine ⟨h1, ?_⟩
      simpa [lineNotDoneHeader, he] using hl2
    | none =>
      have hv : stepLine personal "obsidian" today st l = st := by
        unfold stepLine
        rw [if_pos hh, if_pos rfl, he]
      rw [hv]
      exact ⟨h1, h2⟩
  · cases ht : taskMatch l with
    | some trip =>
      obtain ⟨dn, rawT, rawR⟩ := trip
      have hdn : dn = false := by
        have := hl1
        unfold lineNoDoneTask at this
        rw [ht] at this
        simpa using this
      have hv : stepLine personal "obsidian" today st l
          = taskStep "obsidian" today st l rawT rawR dn := by
        unfold stepLine
        rw [if_neg hh, ht]
      rw [hv, hdn]
      unfold taskStep
      constructor
      · rw [dueTask_doneR, bucketTask_doneR_ne h2]
        exact h1
      · rw [dueTask_currentSection, bucketTask_currentSection]
        exact h2
    | none =>
      have hv : stepLine personal "obsidian" today st l = st := by
        unfold stepLine
        rw [if_neg hh, ht]
        have hm : applyMeta "obsidian" st l = st := rfl
        split_ifs <;> exact hm
      rw [hv]
      exact ⟨h1, h2⟩

theorem foldl_safe {personal : Bool} {today : Nat} (L : List (List Char)) :
    ∀ st : PState, st.doneR = [] → st.currentSection ≠ some "done" →
      (∀ l ∈ L, lineNoDoneTask l = true ∧ lineNotDoneHeader personal l = true) →
      (L.foldl (stepLine personal "obsidian" today) st).doneR = [] ∧
      (L.foldl (stepLine personal "obsidian" today) st).currentSection ≠ some "done" := by
  induction L with
  | nil => exact fun st h1 h2 _ => ⟨h1, h2⟩
  | cons l L ih =>
    intro st h1 h2 hsafe
    have hl := hsafe l (List.mem_cons_self l L)
    have hstep := @stepLine_safe personal today st l h1 h2 hl.left hl.right
    exact ih _ hstep.1 hstep.2 (fun x hx => hsafe x (List.mem_cons_of_mem l hx))

theorem stepLine_doneR_noTask {personal : Bool} {fmt : String} {today : Nat}
    {st : PState} {l : List Char} (ht : taskMatch l = none) :
    (stepLine personal fmt today st l).doneR = st.doneR := by
  unfold stepLine
  by_cases hh : ("## ".data.isPrefixOf l) = true
  · rw [if_pos hh]
    cases (if fmt = "obsidian" then obsHeaderEmoji l else legHeaderEmoji l) with
    | some e => rfl
    | none => rfl
  · rw [if_neg hh, ht]
    by_cases hg : (st.revAll ≠ [] ∧ ("  - ".data.isPrefixOf l) = true)
    · rw [if_pos hg]
      exact applyMeta_doneR fmt st l
    · rw [if_neg hg]

theorem foldl_doneR_noTask {personal : Bool} {fmt : String} {today : Nat}
    (L : List (List Char)) :
    ∀ st : PState, (∀ l ∈ L, (taskMatch l).isNone = true) →
      (L.foldl (stepLine personal fmt today) st).doneR = st.doneR := by
  induction L with
  | nil => exact fun st _ => rfl
  | cons l L ih =>
    intro st hsafe
    have hl : taskMatch l = none := by
      have := hsafe l (List.mem_cons_self l L)
      simpa [Option.isNone_iff_eq_none] using this
    rw [List.foldl_cons, ih _ (fun x hx => hsafe x (List.mem_cons_of_mem l hx)),
      stepLine_doneR_noTask hl]

theorem parse_done_eq (c : String) (p : Bool) (f : String) (t : Nat) :
    (parse_tasks c p f t).done
      = fetch ((parseState c p f t).revAll.reverse) ((parseState c p f t).doneR) := rfl

/-- Claim C2 counterexample: a document whose only done task sits under
a 🔴 header and which has no `## ✅ Done` section.  The archive appends
one line per done task (the count part holds), but the done-section
regex finds nothing, the document is rewritten unchanged, and re-parsing
still yields one done-bucket task instead of zero. -/
theorem claimC2_counterexample :
    archive_done "## 🔴 Q1: A\n- [x] **t**" false 0
      = some (["- ✅ **t**"], "## 🔴 Q1: A\n- [x] **t**") ∧
    (parse_tasks "## 🔴 Q1: A\n- [x] **t**" false "obsidian" 0).done.length = 1 := by
  refine ⟨by decide, by decide⟩

/-- Claim C2 as amended: for a document of the shape
`A ++ "\n" ++ "## ✅ Done" ++ "\n\n" ++ B` whose head part `A` contains
no occurrence of the done-header text, no checked task line and no
header mapping to the done bucket, and whose done-section body `B`
contains no section boundary (`\n## ` or `\n---`), archiving a
non-empty done bucket appends exactly one summary line per done-bucket
task and rewrites the document so that re-parsing yields an empty done
bucket. -/
theorem claimC2_theorem (A B : List Char) (personal : Bool) (today : Nat)
    (h1 : ∀ p, p ≤ A.length →
      litDone.isPrefixOf ((A ++ '\n' :: (litDone ++ '\n' :: '\n' :: B)).drop p) = false)
    (h2 : ∀ p, p ≤ B.length →
      ("\n## ".data.isPrefixOf (B.drop p) = false) ∧
      ("\n---".data.isPrefixOf (B.drop p) = false))
    (hA : ∀ l ∈ splitNL A, lineNoDoneTask l = true ∧ lineNotDoneHeader personal l = true)
    (hne : (parse_tasks (String.mk (A ++ '\n' :: (litDone ++ '\n' :: '\n' :: B)))
        personal "obsidian" today).done ≠ []) :
    ∃ entry newContent,
      archive_done (String.mk (A ++ '\n' :: (litDone ++ '\n' :: '\n' :: B)))
          personal today = some (entry, newContent) ∧
      entry.length
        = (parse_tasks (String.mk (A ++ '\n' :: (litDone ++ '\n' :: '\n' :: B)))
            personal "obsidian" today).done.length ∧
      (parse_tasks newContent personal "obsidian" today).done = [] := by
  refine ⟨archiveLines ((parse_tasks (String.mk (A ++ '\n' :: (litDone ++ '\n' :: '\n' :: B)))
      personal "obsidian" today).done),
    String.mk (doneSub (A ++ '\n' :: (litDone ++ '\n' :: '\n' :: B))), ?_, ?_, ?_⟩
  · simp only [archive_done]
    rw [if_neg hne]
  · simp [archiveLines]
  · have hre : A ++ '\n' :: (litDone ++ '\n' :: '\n' :: B)
        = (A ++ ['\n']) ++ (litDone ++ '\n' :: '\n' :: B) := by simp
    have hskip : ∀ p, p < (A ++ ['\n']).length →
        litDone.isPrefixOf
          (((A ++ ['\n']) ++ (litDone ++ '\n' :: '\n' :: B)).drop p) = false := by
      intro p hp
      have hp' : p ≤ A.length := by
        simp at hp
        omega
      rw [← hre]
      exact h1 p hp'
    have hb' : ∀ p, ("\n## ".data.isPrefixOf (B.drop p) = false)
        ∧ ("\n---".data.isPrefixOf (B.drop p) = false) := by
      intro p
      by_cases hp : p ≤ B.length
      · exact h2 p hp
      · have hd : B.drop p = [] := List.drop_eq_nil_of_le (by omega)
        rw [hd]
        exact ⟨rfl, rfl⟩
    have hsub : doneSub (A ++ '\n' :: (litDone ++ '\n' :: '\n' :: B))
        = A ++ '\n' :: (litDone ++ '\n' :: '\n' :: (donePlaceholder ++ ['\n', '\n'])) := by
      unfold doneSub
      rw [hre]
      rw [doneSubAux_skip (A ++ ['\n']) (litDone ++ '\n' :: '\n' :: B) _ (le_refl _) hskip]
      rw [show ((A ++ ['\n']) ++ (litDone ++ '\n' :: '\n' :: B)).length - (A ++ ['\n']).length
          = (litDone.length + 1 + B.length) + 1 from by simp; omega]
      rw [doneSubAux_fire B _ hb']
      simp
    rw [hsub]
    have hmid : splitNL (A ++ '\n' :: (litDone ++ '\n' :: '\n' :: (donePlaceholder ++ ['\n', '\n'])))
        = splitNL A ++ [litDone, [], donePlaceholder, [], []] := by
      rw [splitNL_append]
      congr 1
    have hdoneR : (parseState
        (String.mk (A ++ '\n' :: (litDone ++ '\n' :: '\n' :: (donePlaceholder ++ ['\n', '\n']))))
        personal "obsidian" today).doneR = [] := by
      unfold parseState
      rw [show (String.mk (A ++ '\n' :: (litDone ++ '\n' :: '\n' :: (donePlaceholder ++ ['\n', '\n'])))).data
          = A ++ '\n' :: (litDone ++ '\n' :: '\n' :: (donePlaceholder ++ ['\n', '\n'])) from rfl]
      rw [hmid, List.foldl_append]
      rw [foldl_doneR_noTask _ _ (by decide)]
      exact (foldl_safe (splitNL A) initPState rfl (by simp [initPState]) hA).1
    rw [parse_done_eq, hdoneR]
    rfl

/-- Witness for C2 at a concrete well-shaped document: a 🔴 section with
an open task, then a final `## ✅ Done` section holding one checked
task.  Archiving emits one summary line and the rewritten document
parses to an empty done bucket. -/
theorem claimC2_witness :
    archive_done "## 🔴 Q1: X\n- [ ] **a**\n## ✅ Done\n\n- [x] **t**" false 0
      = some (["- ✅ **t**"],
          "## 🔴 Q1: X\n- [ ] **a**\n## ✅ Done\n\n_Move completed items here during daily standup_\n\n") ∧
    (parse_tasks
        "## 🔴 Q1: X\n- [ ] **a**\n## ✅ Done\n\n_Move completed items here during daily standup_\n\n"
        false "obsidian" 0).done = [] := by
  obtain ⟨entry, newC, he, hlen, hdone⟩ :=
    claimC2_theorem "## 🔴 Q1: X\n- [ ] **a**".data "- [x] **t**".data false 0
      (by decide) (by decide) (by decide) (by decide)
  have hceq : String.mk ("## 🔴 Q1: X\n- [ ] **a**".data
      ++ '\n' :: (litDone ++ '\n' :: '\n' :: "- [x] **t**".data))
      = "## 🔴 Q1: X\n- [ ] **a**\n## ✅ Done\n\n- [x] **t**" := by decide
  rw [hceq] at he
  have hcomp : archive_done "## 🔴 Q1: X\n- [ ] **a**\n## ✅ Done\n\n- [x] **t**" false 0
      = some (["- ✅ **t**"],
        "## 🔴 Q1: X\n- [ ] **a**\n## ✅ Done\n\n_Move completed items here during daily standup_\n\n") := by
    decide
  rw [he] at hcomp
  have hpair := Option.some.inj hcomp
  refine ⟨by rw [he, hpair], ?_⟩
  have hnc : newC = "## 🔴 Q1: X\n- [ ] **a**\n## ✅ Done\n\n_Move completed items here during daily standup_\n\n" :=
    congrArg Prod.snd hpair
  rw [← hnc]
  exact hdone
